import Mathlib

/-
Verification of the Space_Weather_Plotter data pipeline
(`src/space_weather_plotter/space_weather.py`).

The development shallowly embeds the three core functions of the module —
`fetch_data`, `prepare_dataframe` (with its inner `extract_nested`) and
`resample_data` — together with the Polars operations they invoke:

* `pl.DataFrame(list_of_dicts)`: a table whose columns are inferred from
  the first 100 records (the default `infer_schema_length`) as the union of
  their keys, missing keys becoming nulls and keys first appearing later
  being silently dropped;
* `Expr.str.strptime(pl.Datetime, "%Y-%m-%dT%H:%MZ")`: strict parsing of a
  string column with the fixed chrono format; a non-conforming string raises
  `InvalidOperationError`, a non-string column raises `SchemaError`, and
  nulls pass through;
* `DataFrame.group_by_dynamic(time_col, every=freq).agg(pl.len())`: fixed or
  calendar-width bucketing of a sorted datetime column, one output row per
  non-empty bucket in ascending order; an unparseable `every` token (the
  empty string included) and unsorted input each raise
  `InvalidOperationError`, while a non-positive window, an index ("i")
  duration or nulls in the index column raise other
  (non-`InvalidOperationError`) errors.

Python dictionaries are modelled as association lists with insert-or-update
semantics (updating an existing key keeps its position, like CPython), and
Polars datetimes by their civil fields, with `DT.micros` giving the physical
microsecond value Polars stores.
-/

/-! ## Datetimes -/

/-- Civil datetime fields at minute precision, as parsed from the fixed
format `%Y-%m-%dT%H:%MZ`. -/
structure DT where
  y : Nat
  mo : Nat
  d : Nat
  h : Nat
  mi : Nat

/-- Is `y` a leap year (proleptic Gregorian)? -/
def isLeap (y : Int) : Prop :=
  (y % 4 = 0 ∧ ¬ y % 100 = 0) ∨ y % 400 = 0

instance (y : Int) : Decidable (isLeap y) := by
  unfold isLeap; infer_instance

/-- Number of days in the given month of the given year (month in 1..12). -/
def daysInMonth (y : Int) (mo : Int) : Int :=
  if mo = 2 then (if isLeap y then 29 else 28)
  else if mo = 4 ∨ mo = 6 ∨ mo = 9 ∨ mo = 11 then 30
  else 31

/-- Days from 0000-01-01 to the first day of year `y`
(proleptic Gregorian). -/
def daysBeforeYear (y : Int) : Int :=
  365 * y + (y + 3) / 4 - (y + 99) / 100 + (y + 399) / 400

/-- Cumulative day count before month index `j` (0-based) in a non-leap
year; `j` is expected in `[0, 12)`. -/
def cumDays (j : Int) : Int :=
  if j ≤ 0 then 0 else if j ≤ 1 then 31 else if j ≤ 2 then 59
  else if j ≤ 3 then 90 else if j ≤ 4 then 120 else if j ≤ 5 then 151
  else if j ≤ 6 then 181 else if j ≤ 7 then 212 else if j ≤ 8 then 243
  else if j ≤ 9 then 273 else if j ≤ 10 then 304 else 334

/-- Days from 0000-01-01 to the first day of the month with absolute month
index `k` (that is, month `k % 12` of year `k / 12`). -/
def monthStartDays (k : Int) : Int :=
  daysBeforeYear (k / 12) + cumDays (k % 12) +
    (if 2 ≤ k % 12 ∧ isLeap (k / 12) then 1 else 0)

/-- Microseconds in one day. -/
def usPerDay : Int := 86400000000

/-- Physical value (microseconds) of the first instant of absolute month
index `k`. -/
def monthStartMicros (k : Int) : Int := usPerDay * monthStartDays k

/-- Day number (from 0000-01-01) of a civil datetime. -/
def DT.days (t : DT) : Int :=
  daysBeforeYear (t.y : Int) + cumDays ((t.mo : Int) - 1) +
    (if 2 ≤ (t.mo : Int) - 1 ∧ isLeap (t.y : Int) then 1 else 0) +
    ((t.d : Int) - 1)

/-- Physical microsecond value of a civil datetime: what a Polars
`Datetime("us")` stores (shifted so that 0000-01-01T00:00 is 0; Polars
anchors at 1970-01-01, `epoch1970us` below). -/
def DT.micros (t : DT) : Int :=
  t.days * usPerDay + (t.h : Int) * 3600000000 + (t.mi : Int) * 60000000

/-- Absolute month index of a civil datetime. -/
def DT.monthIdx (t : DT) : Int := 12 * (t.y : Int) + ((t.mo : Int) - 1)

/-- Physical microsecond value of 1970-01-01T00:00 in this development's
anchoring (1970-01-01 is civil day 719528). -/
def epoch1970us : Int := 719528 * 86400000000

/-- Absolute month index of January 1970. -/
def epoch1970month : Int := 23640

/-- The field constraints guaranteed by a successful `strptime`: a real
civil date and in-range time of day. -/
def DT.Valid (t : DT) : Prop :=
  1 ≤ t.mo ∧ t.mo ≤ 12 ∧ 1 ≤ t.d ∧ (t.d : Int) ≤ daysInMonth (t.y : Int) (t.mo : Int) ∧
    t.h ≤ 23 ∧ t.mi ≤ 59

instance (t : DT) : Decidable t.Valid := by
  unfold DT.Valid; infer_instance

/-! ## Parsing with the fixed chrono format `%Y-%m-%dT%H:%MZ`

`str.strptime(pl.Datetime, "%Y-%m-%dT%H:%MZ")` parses a greedy run of
digits for `%Y`, up to two digits for each of `%m`, `%d`, `%H`, `%M`,
literal `-`, `T`, `:`, `Z` characters in between, must consume the whole
string, and validates the result as a real calendar date and time. -/

/-- Numeric value of a digit run. -/
def digitsVal (ds : List Char) : Nat :=
  ds.foldl (fun acc c => 10 * acc + (c.toNat - 48)) 0

/-- Greedy run of digits (for `%Y`): the digits and the remaining input. -/
def spanDigits (cs : List Char) : List Char × List Char :=
  cs.span Char.isDigit

/-- Parse one or two digits (chrono numeric fields `%m`, `%d`, `%H`, `%M`
have maximum width 2). -/
def grab2 : List Char → Option (Nat × List Char)
  | [] => none
  | c :: rest =>
    if c.isDigit then
      match rest with
      | c2 :: r2 =>
        if c2.isDigit then some ((c.toNat - 48) * 10 + (c2.toNat - 48), r2)
        else some (c.toNat - 48, rest)
      | [] => some (c.toNat - 48, [])
    else none

/-- Expect a literal character. -/
def lit (ch : Char) : List Char → Option (List Char)
  | [] => none
  | c :: rest => if c = ch then some rest else none

/-- Build a datetime, rejecting invalid calendar fields (chrono's final
validation step). -/
def mkDT (y mo d hh mi : Nat) : Option DT :=
  if (⟨y, mo, d, hh, mi⟩ : DT).Valid then some ⟨y, mo, d, hh, mi⟩ else none

/-- Parse a string in the fixed format `%Y-%m-%dT%H:%MZ`, validating the
calendar fields; `none` models a chrono parse failure. -/
def parseTS (s : String) : Option DT :=
  let ys := (spanDigits s.data).1
  let r1 := (spanDigits s.data).2
  if ys.isEmpty then none else
  (lit '-' r1).bind fun r2 =>
  (grab2 r2).bind fun p3 =>
  (lit '-' p3.2).bind fun r4 =>
  (grab2 r4).bind fun p5 =>
  (lit 'T' p5.2).bind fun r6 =>
  (grab2 r6).bind fun p7 =>
  (lit ':' p7.2).bind fun r8 =>
  (grab2 r8).bind fun p9 =>
  (lit 'Z' p9.2).bind fun r10 =>
  if r10.isEmpty then mkDT (digitsVal ys) p3.1 p5.1 p7.1 p9.1 else none

/-! ## Values and Python dictionaries -/

/-- A dynamically typed value: a JSON value as decoded by `response.json()`,
which is also the type of a DataFrame cell.  `vDT` is a datetime cell created
by `str.strptime` (carrying the civil fields of the parsed string); `vTime` is
a datetime cell given directly by its physical microsecond value, as produced
for the bucket starts of `group_by_dynamic`. -/
inductive Val where
  | vStr (s : String)
  | vNum (n : Int)
  | vBool (b : Bool)
  | vNull
  | vList (xs : List Val)
  | vObj (kvs : List (String × Val))
  | vDT (t : DT)
  | vTime (t : Int)

/-- First value bound to `k`, if any (`dict.__getitem__` / `dict.get`). -/
def alistGet {α : Type} : List (String × α) → String → Option α
  | [], _ => none
  | p :: rest, k => if p.1 = k then some p.2 else alistGet rest k

/-- `d[k] = v` on a Python dict: update in place if the key exists
(keeping its position), else append. -/
def dset {α : Type} : List (String × α) → String → α → List (String × α)
  | [], k, v => [(k, v)]
  | p :: rest, k, v => if p.1 = k then (k, v) :: rest else p :: dset rest k v

/-- `d.get(k, dflt)`. -/
def dgetD {α : Type} (xs : List (String × α)) (k : String) (dflt : α) : α :=
  (alistGet xs k).getD dflt

/-- A processed record: a Python dict from column names to values. -/
abbrev Rec := List (String × Val)

/-- `isinstance(v, dict)`. -/
def Val.isObj : Val → Bool
  | Val.vObj _ => true
  | _ => false

/-- The value at `k` when it is a list (`extract_nested` iterates it), and
`none` when `k` is absent or bound to a non-list. -/
def listAt (e : Rec) (k : String) : Option (List Val) :=
  match alistGet e k with
  | some (Val.vList vs) => some vs
  | _ => none

/-- Apply `f` to every element, failing if any application fails (the
all-or-nothing strictness of a Polars column conversion). -/
def mapOpt {α β : Type} (f : α → Option β) : List α → Option (List β)
  | [] => some []
  | x :: xs =>
    match f x, mapOpt f xs with
    | some y, some ys => some (y :: ys)
    | _, _ => none

/-! ## The Table (Polars DataFrame) -/

/-- A DataFrame: named columns in order, each a list of cells.  Built only
by `pl.DataFrame(list_of_dicts)` and by the resampler, so all columns have
equal length. -/
structure DataFrame where
  cols : List (String × List Val)

/-- `df.columns`. -/
def DataFrame.names (df : DataFrame) : List String := df.cols.map Prod.fst

/-- The cells of column `c` (empty when absent; column presence is always
checked separately where it matters). -/
def DataFrame.getColD (df : DataFrame) (c : String) : List Val :=
  (alistGet df.cols c).getD []

/-- `df.height`; `df.is_empty()` is `height = 0`. -/
def DataFrame.height (df : DataFrame) : Nat :=
  match df.cols with
  | [] => 0
  | p :: _ => p.2.length

/-- `pl.DataFrame()`. -/
def emptyDF : DataFrame := ⟨[]⟩

/-- `with_columns`: replace the cells of an existing column in place. -/
def DataFrame.setCol (df : DataFrame) (c : String) (cells : List Val) : DataFrame :=
  ⟨df.cols.map fun p => if p.1 = c then (c, cells) else p⟩

/-- The union of the keys of the records, in order of first appearance. -/
def unionKeys (rs : List Rec) : List String :=
  rs.foldl (fun acc r => acc ++ (r.map Prod.fst).filter (fun k => decide (k ∉ acc))) []

/-- `pl.DataFrame(list_of_dicts)`: the columns are inferred from the first
100 records only (Polars' default `infer_schema_length`), as the union of
their keys in order of first appearance; every record then contributes one
row, a missing key becoming a null and a key outside the inferred schema
being silently dropped. -/
def dfFromRecords (rs : List Rec) : DataFrame :=
  ⟨(unionKeys (rs.take 100)).map fun c => (c, rs.map fun r => dgetD r c Val.vNull)⟩

/-! ## The Table Builder (`prepare_dataframe`) -/

/-- The `nested_keys` argument of `prepare_dataframe`: Python `None`, a dict
of per-key sub-extraction dicts, or any non-dict value (such as the string
`"time"` that `main` passes in this positional slot for solar flares) —
`extract_nested` only distinguishes `isinstance(nested_keys, dict)`. -/
inductive NestedArg where
  | noSpec
  | dict (spec : List (String × List (String × String)))
  | nonDict

/-- The inner `extract_nested` of `prepare_dataframe`: for each
`(nested_key, extraction)` pair of a dict argument, if the record's value at
`nested_key` is a list, flatten each dict element's sub-fields into the
record (`entry[sub_col] = nested_entry.get(sub_key)`), later elements
overwriting earlier ones; any non-dict `nested_keys` leaves the record
untouched.

`extractStep` is the body of the inner loop: for a dict element of the
nested list, write each extracted sub-field into the record
(`entry[sub_col] = nested_entry.get(sub_key)`); other elements are
skipped. -/
def extractStep (sub : List (String × String)) (e2 : Rec) (ne : Val) : Rec :=
  match ne with
  | Val.vObj o => sub.foldl (fun e3 sc => dset e3 sc.2 (dgetD o sc.1 Val.vNull)) e2
  | _ => e2

/-- The body of the outer loop of `extract_nested`: handle one
`(nested_key, extraction)` pair — if the record's value at the key is a
list, fold its elements through `extractStep`; otherwise leave the record
alone. -/
def extractPair (e : Rec) (pr : String × List (String × String)) : Rec :=
  match alistGet e pr.1 with
  | some (Val.vList vs) => vs.foldl (extractStep pr.2) e
  | _ => e

def extract_nested (entry : Rec) (nested : NestedArg) : Rec :=
  match nested with
  | .dict spec => spec.foldl extractPair entry
  | _ => entry

/-- `{columns_mapping.get(k, k): v for k, v in entry.items()}`. -/
def renameKeys (mapping : List (String × String)) (kvs : Rec) : Rec :=
  kvs.foldl (fun acc kv => dset acc ((alistGet mapping kv.1).getD kv.1) kv.2) []

/-- The `processed_data` list comprehension: keep dict entries only, rename
their keys, apply nested extraction. -/
def processedRecords (ds : List Val) (mapping : List (String × String))
    (nested : NestedArg) : List Rec :=
  ds.filterMap fun e =>
    match e with
    | Val.vObj kvs => some (extract_nested (renameKeys mapping kvs) nested)
    | _ => none

/-- The assembled table, before any timestamp conversion. -/
def buildTable (ds : List Val) (mapping : List (String × String))
    (nested : NestedArg) : DataFrame :=
  dfFromRecords (processedRecords ds mapping nested)

/-- Polars error classes relevant to this program.  `resample_data` catches
exactly `InvalidOperationError`; the others propagate. -/
inductive PErr where
  | invalidOp
  | schemaErr
  | computeErr
  | colNotFound
deriving DecidableEq

/-- Parse one cell of a string column under `strptime` (strict): nulls pass
through, strings must match the format. -/
def strptimeCell : Val → Option Val
  | Val.vStr s => (parseTS s).map Val.vDT
  | v => some v

/-- Is the cell admissible in a `String`-typed column? -/
def Val.isStrOrNull : Val → Bool
  | Val.vStr _ => true
  | Val.vNull => true
  | _ => false

/-- `df.with_columns(pl.col(c).str.strptime(pl.Datetime, "%Y-%m-%dT%H:%MZ"))`:
fails with `ColumnNotFoundError` when `c` is absent, with `SchemaError` when
the column is not string-typed (e.g. already parsed to datetimes), and with
`InvalidOperationError` when any string fails the strict parse. -/
def strptimeCol (df : DataFrame) (c : String) : Except PErr DataFrame :=
  match alistGet df.cols c with
  | none => .error .colNotFound
  | some cells =>
    if cells.all Val.isStrOrNull then
      match mapOpt strptimeCell cells with
      | some parsed => .ok (df.setCol c parsed)
      | none => .error .invalidOp
    else .error .schemaErr

/-- `prepare_dataframe(data, columns_mapping, nested_keys, timestamp_col)`.
`data` is `None` or a list; empty-ish input short-circuits to an empty
DataFrame; the timestamp column is converted only when present. -/
def prepare_dataframe (data : Option (List Val)) (mapping : List (String × String))
    (nested : NestedArg) (tsCol : Option String) : Except PErr DataFrame :=
  match data with
  | none => .ok emptyDF
  | some ds =>
    if ds.isEmpty then .ok emptyDF
    else
      let df := buildTable ds mapping nested
      match tsCol with
      | some c => if c ∈ df.names then strptimeCol df c else .ok df
      | none => .ok df

/-! ## The Resampler (`resample_data`) -/

/-- A parsed Polars duration (`every` argument): calendar months plus a
fixed nanosecond part; `parsedInt` marks the index duration unit `"i"`. -/
structure Dur where
  months : Int
  nanos : Int
  parsedInt : Bool

/-- One `<integer><unit>` step at a time over the duration string; `fuel`
only bounds the recursion (each step consumes at least two characters). -/
def parseDurAux : Nat → List Char → Dur → Option Dur
  | 0, _, _ => none
  | _, [], acc => some acc
  | fuel + 1, cs, acc =>
    let ds := (spanDigits cs).1
    let rest := (spanDigits cs).2
    if ds.isEmpty then none else
    let n : Int := (digitsVal ds : Nat)
    match rest with
    | 'n' :: 's' :: r => parseDurAux fuel r { acc with nanos := acc.nanos + n }
    | 'u' :: 's' :: r => parseDurAux fuel r { acc with nanos := acc.nanos + n * 1000 }
    | 'm' :: 's' :: r => parseDurAux fuel r { acc with nanos := acc.nanos + n * 1000000 }
    | 'm' :: 'o' :: r => parseDurAux fuel r { acc with months := acc.months + n }
    | 'm' :: r => parseDurAux fuel r { acc with nanos := acc.nanos + n * 60000000000 }
    | 's' :: r => parseDurAux fuel r { acc with nanos := acc.nanos + n * 1000000000 }
    | 'h' :: r => parseDurAux fuel r { acc with nanos := acc.nanos + n * 3600000000000 }
    | 'd' :: r => parseDurAux fuel r { acc with nanos := acc.nanos + n * 86400000000000 }
    | 'w' :: r => parseDurAux fuel r { acc with nanos := acc.nanos + n * 604800000000000 }
    | 'q' :: r => parseDurAux fuel r { acc with months := acc.months + n * 3 }
    | 'y' :: r => parseDurAux fuel r { acc with months := acc.months + n * 12 }
    | 'i' :: r => parseDurAux fuel r { acc with parsedInt := true }
    | _ => none

/-- `polars.utils.convert.parse_duration` / Rust `Duration::parse`: a
non-empty sequence of `<integer><unit>` atoms with units `ns, us, ms, s, m,
h, d, w, mo, q, y, i`, optionally negated as a whole by a leading `-`;
anything else — including the empty string and a bare sign — is rejected
(raising `InvalidOperationError` at the call site). -/
def parseDuration (s : String) : Option Dur :=
  match s.data with
  | [] => none
  | '-' :: cs =>
    if cs.isEmpty then none
    else
      (parseDurAux (cs.length + 1) cs ⟨0, 0, false⟩).map fun d =>
        ⟨-d.months, -d.nanos, d.parsedInt⟩
  | cs => parseDurAux (cs.length + 1) cs ⟨0, 0, false⟩


/-- Start of the bucket containing a datetime, for windows of width `dur`
(`group_by_dynamic` with `every=dur`, default offset and `start_by`):
calendar truncation of the month index for month-based durations, floor
alignment of the microsecond value (to the 1970 epoch) for fixed-width
ones. -/
def bucketKey (dur : Dur) (t : DT) : Int :=
  if 0 < dur.months then
    let k := t.monthIdx - epoch1970month
    monthStartMicros (epoch1970month + dur.months * (k / dur.months))
  else
    let w := dur.nanos / 1000
    if w ≤ 0 then epoch1970us
    else epoch1970us + w * ((t.micros - epoch1970us) / w)

/-- Collapse equal consecutive values into `(value, run length)` pairs: the
non-empty buckets with their row counts, in input order. -/
def groupRuns : List Int → List (Int × Nat)
  | [] => []
  | x :: xs =>
    match groupRuns xs with
    | [] => [(x, 1)]
    | (y, c) :: rest => if x = y then (y, c + 1) :: rest else (x, 1) :: (y, c) :: rest

/-- A cell as a datetime value, when it is one. -/
def dtOf : Val → Option DT
  | Val.vDT t => some t
  | _ => none

/-- All cells as datetimes, or `none` (a null or non-datetime in the index
column makes `group_by_dynamic` fail). -/
def cellsDT (cells : List Val) : Option (List DT) :=
  mapOpt dtOf cells

/-- The sortedness requirement `group_by_dynamic` places on its index
column. -/
def ascMicros : List DT → Bool
  | [] => true
  | [_] => true
  | a :: b :: t => decide (a.micros ≤ b.micros) && ascMicros (b :: t)

/-- `df.group_by_dynamic(c, every=freq).agg(pl.len())`: requires a clean
datetime index column, a recognized, positive, non-index duration token and
sorted input; an unrecognized token and unsorted input each raise
`InvalidOperationError` (the duration parser and the sortedness guard);
otherwise it produces one row per non-empty bucket — its start time and its
row count — in ascending order. -/
def groupByDynamic (df : DataFrame) (c : String) (freq : String) :
    Except PErr DataFrame :=
  match cellsDT (df.getColD c) with
  | none => .error .computeErr
  | some dts =>
    match parseDuration freq with
    | none => .error .invalidOp
    | some dur =>
      if dur.parsedInt then .error .computeErr
      else if 0 < dur.months ∨ 0 < dur.nanos then
        if ascMicros dts then
          let runs := groupRuns (dts.map (bucketKey dur))
          .ok ⟨[(c, runs.map fun r => Val.vTime r.1),
                ("len", runs.map fun r => Val.vNum (r.2 : Int))]⟩
        else .error .invalidOp
      else .error .computeErr

/-- The failure conditions of `resample_data`: the two `ValueError`s it
raises itself, or an uncaught Polars error escaping the `try` block. -/
inductive RErr where
  | emptyDf
  | invalidFreq
  | uncaught (e : PErr)
deriving DecidableEq

/-- `resample_data(df, time_col, freq)`: empty-input check first, then the
`try` block — re-parse the time column with the fixed format and group
dynamically — with `except InvalidOperationError` rewrapped as the
"invalid frequency" `ValueError`. -/
def resample_data (df : DataFrame) (timeCol freq : String) :
    Except RErr DataFrame :=
  if df.height = 0 then .error .emptyDf
  else
    match (strptimeCol df timeCol).bind fun d1 => groupByDynamic d1 timeCol freq with
    | .ok r => .ok r
    | .error PErr.invalidOp => .error .invalidFreq
    | .error e => .error (.uncaught e)

/-! ## The Fetcher (`fetch_data`) -/

/-- What the HTTP client capability returns: a status, the decoded JSON
body (used only on success) and the body text. -/
structure HttpResponse where
  status : Nat
  body : Val
  text : String

/-- The fixed base URL of the module. -/
def BASE_URL : String := "https://api.nasa.gov/DONKI/"

/-- The static API key of the module. -/
def API_KEY : String := "gSCtK7lofcFpG45Luv5rYD8hG2JlMKVbsCp22QbM"

/-- `fetch_data(endpoint, params)` over an explicit HTTP client `http`:
adds the API key to the params, issues the GET, returns the decoded body on
status 200 and otherwise `None` plus the printed diagnostic line.  Total —
no exception in either case. -/
def fetch_data (http : String → List (String × String) → HttpResponse)
    (endpoint : String) (params : List (String × String)) :
    Option Val × List String :=
  let ps := dset params "api_key" API_KEY
  let r := http (BASE_URL ++ endpoint) ps
  if r.status = 200 then (some r.body, [])
  else (none, ["Error: " ++ toString r.status ++ " - " ++ r.text])

/-! ## Observation helpers used by the statements -/

/-- The physical datetime values of a list of cells (the bucket-start
column of a resampled table). -/
def timesOf (cells : List Val) : List Int :=
  cells.filterMap fun v =>
    match v with
    | Val.vTime t => some t
    | _ => none

/-- A cell as a parsed timestamp: it is a string and the fixed format
accepts it. -/
def tsOfVal : Val → Option DT
  | Val.vStr s => parseTS s
  | _ => none

/-- The time column of `df`, provided it exists, is entirely string-typed
and every value parses under the fixed format — the situation
`resample_data` is designed for. -/
def timeParses (df : DataFrame) (c : String) : Option (List DT) :=
  match alistGet df.cols c with
  | some cells => mapOpt tsOfVal cells
  | none => none

/-! ## Concrete tables used by the witnesses and counterexamples -/

/-- The table of the repository's own resampling test: four conforming
time strings over two days. -/
def dfFourRows : DataFrame :=
  ⟨[("time", [Val.vStr "2024-01-01T00:00Z", Val.vStr "2024-01-01T01:00Z",
              Val.vStr "2024-01-01T02:00Z", Val.vStr "2024-01-02T00:00Z"]),
    ("intensity", [Val.vNum 1, Val.vNum 2, Val.vNum 3, Val.vNum 4])]⟩

/-- Daily resampling of `dfFourRows`: two buckets of 3 and 1 rows. -/
def dfFourRowsDaily : DataFrame :=
  ⟨[("time", [Val.vTime 63871286400000000, Val.vTime 63871372800000000]),
    ("len", [Val.vNum 3, Val.vNum 1])]⟩

/-- A one-row table whose time cell is not a conforming timestamp
string. -/
def dfBadTime : DataFrame := ⟨[("time", [Val.vStr "garbage"])]⟩

/-- A one-row table whose time column was already parsed to datetimes (as
the Table Builder leaves it when given that timestamp column). -/
def dfParsedTime : DataFrame := ⟨[("time", [Val.vDT ⟨2024, 1, 1, 0, 0⟩])]⟩

/-- The parsed timestamps of `dfFourRows`' time column. -/
def dtsFourRows : List DT :=
  [⟨2024, 1, 1, 0, 0⟩, ⟨2024, 1, 1, 1, 0⟩, ⟨2024, 1, 1, 2, 0⟩, ⟨2024, 1, 2, 0, 0⟩]

/-- The record of the repository's builder test (spec Scenario A). -/
def scenarioARecords : List Val :=
  [Val.vObj [("beginTime", Val.vStr "2024-01-01T00:00Z"), ("classType", Val.vStr "M1")]]

/-- The column mapping of spec Scenario A. -/
def scenarioAMapping : List (String × String) :=
  [("beginTime", "time"), ("classType", "intensity")]

/-- 100 records with key "a" followed by one record whose key "b" first
appears after Polars' schema-inference window. -/
def manyRecords : List Val :=
  List.replicate 100 (Val.vObj [("a", Val.vNum 1)]) ++ [Val.vObj [("b", Val.vNum 2)]]

/-! # Theorems -/

/-! ## Sanity checks of the embedding -/

example : parseTS "2024-01-01T00:00Z" = some ⟨2024, 1, 1, 0, 0⟩ := by rfl
example : parseTS "2024-02-29T23:59Z" = some ⟨2024, 2, 29, 23, 59⟩ := by rfl
example : parseTS "2023-02-29T00:00Z" = none := by rfl
example : parseTS "2024-01-01T00:00" = none := by rfl
example : parseTS "garbage" = none := by rfl
example : parseTS "2024-01-01T00:00Zx" = none := by rfl

example : (parseDuration "1d").map Dur.nanos = some 86400000000000 := by rfl
example : (parseDuration "1w").map Dur.nanos = some 604800000000000 := by rfl
example : (parseDuration "1mo").map Dur.months = some 1 := by rfl
example : parseDuration "invalid_frequency" = none := by rfl
example : parseDuration "1x" = none := by rfl

example :
    prepare_dataframe
      (some [Val.vObj [("beginTime", Val.vStr "2024-01-01T00:00Z"),
                       ("classType", Val.vStr "M1")]])
      [("beginTime", "time"), ("classType", "intensity")] NestedArg.noSpec (some "time")
    = .ok ⟨[("time", [Val.vDT ⟨2024, 1, 1, 0, 0⟩]), ("intensity", [Val.vStr "M1"])]⟩ := by
  rfl

example : resample_data dfFourRows "time" "1d" = .ok dfFourRowsDaily := by rfl
example : resample_data dfFourRows "time" "invalid_frequency" = .error .invalidFreq := by rfl
example : resample_data ⟨[("time", []), ("intensity", [])]⟩ "time" "1d" = .error .emptyDf := by rfl

/-! ## Timestamp parsing lemmas -/

/-- A datetime built by `mkDT` satisfies the calendar constraints. -/
theorem mkDT_valid {y mo d hh mi : Nat} {t : DT}
    (h : mkDT y mo d hh mi = some t) : t.Valid := by
  unfold mkDT at h
  split at h
  · injection h with h; subst h; assumption
  · exact absurd h (by simp)

/-- A parsed timestamp satisfies the calendar constraints. -/
theorem parseTS_valid {s : String} {t : DT} (h : parseTS s = some t) : t.Valid := by
  unfold parseTS at h
  dsimp only at h
  split at h
  · exact absurd h (by simp)
  · simp only [Option.bind_eq_some] at h
    obtain ⟨r2, -, r3, -, r4, -, r5, -, r6, -, r7, -, r8, -, r9, -, r10, -, h⟩ := h
    split at h
    · exact mkDT_valid h
    · exact absurd h (by simp)

/-- `ascMicros` decides the ascending chain property. -/
theorem ascMicros_iff (l : List DT) :
    ascMicros l = true ↔ List.Chain' (fun a b : DT => a.micros ≤ b.micros) l := by
  match l with
  | [] => simp [ascMicros]
  | [a] => simp [ascMicros]
  | a :: b :: t =>
    rw [List.chain'_cons, ← ascMicros_iff (b :: t)]
    simp [ascMicros]

/-- One year adds 365 days, plus one in leap years. -/
theorem daysBeforeYear_succ (y : Int) :
    daysBeforeYear (y + 1) = daysBeforeYear y + 365 + (if isLeap y then 1 else 0) := by
  unfold daysBeforeYear isLeap
  split_ifs with h <;> omega

/-- Month starts strictly increase with the absolute month index. -/
theorem monthStartDays_lt_succ (k : Int) : monthStartDays k < monthStartDays (k + 1) := by
  rcases (by omega : k % 12 = 11 ∨ k % 12 < 11) with h | h
  · have ha : (k + 1) / 12 = k / 12 + 1 := by omega
    have hb : (k + 1) % 12 = 0 := by omega
    simp only [monthStartDays, ha, hb, h, daysBeforeYear_succ]
    norm_num [cumDays]
  · have h0 : 0 ≤ k % 12 := by omega
    have ha : (k + 1) / 12 = k / 12 := by omega
    have hb : (k + 1) % 12 = k % 12 + 1 := by omega
    simp only [monthStartDays, ha, hb]
    obtain ⟨j, hj0, hj10, hjeq⟩ : ∃ j, 0 ≤ j ∧ j ≤ 10 ∧ k % 12 = j :=
      ⟨k % 12, by omega, by omega, rfl⟩
    rw [hjeq]
    interval_cases j <;> norm_num [cumDays] <;> omega

/-- `monthStartDays` at the month index of a datetime with a month in
range. -/
theorem monthStartDays_monthIdx (t : DT) (h1 : 1 ≤ t.mo) (h2 : t.mo ≤ 12) :
    monthStartDays t.monthIdx =
      daysBeforeYear (t.y : Int) + cumDays ((t.mo : Int) - 1) +
        (if 2 ≤ (t.mo : Int) - 1 ∧ isLeap (t.y : Int) then 1 else 0) := by
  unfold monthStartDays DT.monthIdx
  have ha : (12 * (t.y : Int) + ((t.mo : Int) - 1)) / 12 = (t.y : Int) := by omega
  have hb : (12 * (t.y : Int) + ((t.mo : Int) - 1)) % 12 = (t.mo : Int) - 1 := by omega
  rw [ha, hb]

/-- A valid datetime's day number is bracketed by its month start and the
next month start. -/
theorem days_sandwich (t : DT) (hv : t.Valid) :
    monthStartDays t.monthIdx ≤ t.days ∧ t.days < monthStartDays (t.monthIdx + 1) := by
  obtain ⟨h1, h2, h3, h4, h5, h6⟩ := hv
  constructor
  · rw [monthStartDays_monthIdx t h1 h2]
    unfold DT.days isLeap
    omega
  · rcases (by omega : t.mo = 12 ∨ t.mo ≤ 11) with h12 | h12
    · have h12i : (t.mo : Int) = 12 := by exact_mod_cast congrArg Nat.cast h12
      have hk : t.monthIdx + 1 = 12 * ((t.y : Int) + 1) := by
        unfold DT.monthIdx; omega
      have ha : (12 * ((t.y : Int) + 1)) / 12 = (t.y : Int) + 1 := by omega
      have hb : (12 * ((t.y : Int) + 1)) % 12 = 0 := by omega
      rw [hk]
      unfold monthStartDays
      rw [ha, hb, daysBeforeYear_succ]
      unfold daysInMonth at h4
      rw [h12i] at h4
      norm_num at h4
      unfold DT.days
      rw [h12i]
      unfold cumDays isLeap
      omega
    · have ha : (t.monthIdx + 1) / 12 = (t.y : Int) := by
        unfold DT.monthIdx; omega
      have hb : (t.monthIdx + 1) % 12 = (t.mo : Int) := by
        unfold DT.monthIdx; omega
      unfold monthStartDays
      rw [ha, hb]
      unfold daysInMonth at h4
      unfold isLeap at h4
      unfold DT.days cumDays isLeap
      generalize hm : (t.mo : Int) = m at h4 ⊢
      have hm1 : 1 ≤ m := by omega
      have hm11 : m ≤ 11 := by omega
      interval_cases m <;> norm_num at h4 ⊢ <;> omega

/-- The physical value of a valid datetime is bracketed by its month's
start instant and the next month's. -/
theorem micros_sandwich (t : DT) (hv : t.Valid) :
    monthStartMicros t.monthIdx ≤ t.micros ∧
      t.micros < monthStartMicros (t.monthIdx + 1) := by
  obtain ⟨hd1, hd2⟩ := days_sandwich t hv
  obtain ⟨-, -, -, -, h5, h6⟩ := hv
  unfold monthStartMicros DT.micros usPerDay at *
  omega

/-- `monthStartMicros` is strictly monotone. -/
theorem monthStartMicros_strictMono : StrictMono monthStartMicros := by
  have hd : StrictMono monthStartDays := strictMono_int_of_lt_succ monthStartDays_lt_succ
  intro a b hab
  exact mul_lt_mul_of_pos_left (hd hab) (by norm_num [usPerDay])

/-- Chronological order of valid datetimes is reflected in their month
indices. -/
theorem monthIdx_mono {p q : DT} (hp : p.Valid) (hq : q.Valid)
    (h : p.micros ≤ q.micros) : p.monthIdx ≤ q.monthIdx := by
  by_contra hlt
  push_neg at hlt
  have h1 := (micros_sandwich p hp).1
  have h2 := (micros_sandwich q hq).2
  have h3 : monthStartMicros (q.monthIdx + 1) ≤ monthStartMicros p.monthIdx :=
    monthStartMicros_strictMono.monotone (by omega)
  omega

/-- Bucket starts respect chronological order of valid datetimes. -/
theorem bucketKey_mono (dur : Dur) {p q : DT} (hp : p.Valid) (hq : q.Valid)
    (h : p.micros ≤ q.micros) : bucketKey dur p ≤ bucketKey dur q := by
  unfold bucketKey
  dsimp only
  split_ifs with hm hw
  · apply monthStartMicros_strictMono.monotone
    have hk : p.monthIdx - epoch1970month ≤ q.monthIdx - epoch1970month := by
      have := monthIdx_mono hp hq h
      omega
    have hdiv := Int.ediv_le_ediv hm hk
    have := mul_le_mul_of_nonneg_left hdiv (by omega : (0 : Int) ≤ dur.months)
    omega
  · omega
  · have hw' : 0 < dur.nanos / 1000 := by omega
    have hdiv := Int.ediv_le_ediv hw'
      (by omega : p.micros - epoch1970us ≤ q.micros - epoch1970us)
    have := mul_le_mul_of_nonneg_left hdiv (by omega : (0 : Int) ≤ dur.nanos / 1000)
    omega

/-- Mapping `bucketKey` over a chronologically sorted list of valid
datetimes yields a non-decreasing list. -/
theorem chain_map_bucketKey (dur : Dur) :
    ∀ l : List DT, (∀ x ∈ l, x.Valid) →
      List.Chain' (fun a b : DT => a.micros ≤ b.micros) l →
      List.Chain' (· ≤ ·) (l.map (bucketKey dur))
  | [], _, _ => by simp
  | [a], _, _ => by simp
  | a :: b :: t, hv, hc => by
    rw [List.map_cons, List.map_cons, List.chain'_cons]
    rw [List.chain'_cons] at hc
    refine ⟨bucketKey_mono dur (hv a (by simp)) (hv b (by simp)) hc.1, ?_⟩
    have := chain_map_bucketKey dur (b :: t) (fun x hx => hv x (by simp [hx])) hc.2
    simpa using this

/-- Unfold one step of `groupRuns`. -/
theorem groupRuns_cons (x : Int) (xs : List Int) :
    groupRuns (x :: xs) =
      match groupRuns xs with
      | [] => [(x, 1)]
      | (y, c) :: rest => if x = y then (y, c + 1) :: rest else (x, 1) :: (y, c) :: rest := rfl

/-- The head of the runs of `x :: xs` carries the value `x`. -/
theorem groupRuns_head_fst (x : Int) (xs : List Int) :
    ((groupRuns (x :: xs)).map Prod.fst).head? = some x := by
  rw [groupRuns_cons]
  cases hgr : groupRuns xs with
  | nil => simp
  | cons p rest =>
    obtain ⟨z, c⟩ := p
    simp only
    split_ifs with he
    · simp [he]
    · simp

/-- Collapsing runs of a non-decreasing list gives strictly increasing
values. -/
theorem groupRuns_chain :
    ∀ xs : List Int, List.Chain' (· ≤ ·) xs →
      List.Chain' (· < ·) ((groupRuns xs).map Prod.fst)
  | [], _ => by simp [groupRuns]
  | [x], _ => by simp [groupRuns]
  | x :: y :: t, hc => by
    rw [List.chain'_cons] at hc
    have ih := groupRuns_chain (y :: t) hc.2
    rw [groupRuns_cons x (y :: t)]
    cases hgr : groupRuns (y :: t) with
    | nil => simp
    | cons p rest =>
      obtain ⟨z, c⟩ := p
      have hz : z = y := by
        have hh := groupRuns_head_fst y t
        rw [hgr] at hh
        simpa using hh
      rw [hgr] at ih
      simp only
      split_ifs with he
      · simpa using ih
      · simp only [List.map_cons] at ih ⊢
        exact List.chain'_cons.mpr ⟨by omega, ih⟩

/-- `mapOpt` succeeds exactly on the pointwise-successful lists. -/
theorem mapOpt_eq_some_iff {α β : Type} {f : α → Option β} :
    ∀ {l : List α} {l' : List β},
      mapOpt f l = some l' ↔ List.Forall₂ (fun x y => f x = some y) l l'
  | [], l' => by
    constructor
    · intro h
      injection h with h
      subst h
      exact List.Forall₂.nil
    · intro h
      cases h
      rfl
  | x :: xs, l' => by
    constructor
    · intro h
      unfold mapOpt at h
      cases hx : f x with
      | none => rw [hx] at h; exact absurd h (by simp)
      | some y =>
        rw [hx] at h
        cases hxs : mapOpt f xs with
        | none => rw [hxs] at h; exact absurd h (by simp)
        | some ys =>
          rw [hxs] at h
          injection h with h
          subst h
          exact List.Forall₂.cons hx (mapOpt_eq_some_iff.mp hxs)
    · intro h
      cases h with
      | cons hx hxs =>
        unfold mapOpt
        rw [hx, mapOpt_eq_some_iff.mpr hxs]

/-- Each output of a successful `mapOpt` comes from some input. -/
theorem mapOpt_mem {α β : Type} {f : α → Option β} :
    ∀ {l : List α} {l' : List β}, mapOpt f l = some l' →
      ∀ y ∈ l', ∃ x ∈ l, f x = some y
  | [], _, h => by
    injection h with h
    subst h
    intro y hy
    cases hy
  | x :: xs, l', h => by
    unfold mapOpt at h
    cases hx : f x with
    | none => rw [hx] at h; exact absurd h (by simp)
    | some z =>
      rw [hx] at h
      cases hxs : mapOpt f xs with
      | none => rw [hxs] at h; exact absurd h (by simp)
      | some zs =>
        rw [hxs] at h
        injection h with h
        subst h
        intro y hy
        rcases List.mem_cons.mp hy with hy | hy
        · exact ⟨x, by simp, hy ▸ hx⟩
        · obtain ⟨w, hw1, hw2⟩ := mapOpt_mem hxs y hy
          exact ⟨w, by simp [hw1], hw2⟩

/-- `mapOpt` succeeds exactly when every element succeeds. -/
theorem mapOpt_isSome_iff {α β : Type} {f : α → Option β} :
    ∀ {l : List α}, (mapOpt f l).isSome = true ↔ ∀ x ∈ l, (f x).isSome = true
  | [] => by simp [mapOpt]
  | x :: xs => by
    unfold mapOpt
    cases hx : f x with
    | none => simp [hx, List.forall_mem_cons]
    | some y =>
      cases hxs : mapOpt f xs with
      | none =>
        have h2 : ¬ ∀ x ∈ xs, (f x).isSome = true := by
          rw [← mapOpt_isSome_iff, hxs]
          simp
        simp [hx, List.forall_mem_cons, h2]
      | some ys =>
        have h2 : ∀ x ∈ xs, (f x).isSome = true := by
          rw [← mapOpt_isSome_iff, hxs]
          simp
        simp only [hx, hxs, List.forall_mem_cons]
        simpa using h2

/-- Looking up a key just set. -/
theorem alistGet_dset_self {α : Type} :
    ∀ (xs : List (String × α)) (k : String) (v : α),
      alistGet (dset xs k v) k = some v
  | [], k, v => by simp [dset, alistGet]
  | p :: rest, k, v => by
    unfold dset
    split_ifs with hp
    · simp [alistGet]
    · unfold alistGet
      rw [if_neg hp]
      exact alistGet_dset_self rest k v

/-- A key is among the mapped-out names exactly when its lookup succeeds. -/
theorem alistGet_isSome_iff_mem {α : Type} :
    ∀ (xs : List (String × α)) (k : String),
      (alistGet xs k).isSome = true ↔ k ∈ xs.map Prod.fst
  | [], k => by simp [alistGet]
  | p :: rest, k => by
    unfold alistGet
    split_ifs with hp
    · simp [hp]
    · rw [alistGet_isSome_iff_mem rest k]
      simp [Ne.symm hp]

/-- `setCol` keeps the column names. -/
theorem names_setCol (df : DataFrame) (c : String) (cells : List Val) :
    (df.setCol c cells).names = df.names := by
  unfold DataFrame.setCol DataFrame.names
  simp only [List.map_map]
  apply List.map_congr_left
  intro p _
  by_cases hp : p.1 = c
  · simp [hp]
  · simp [hp]

/-- Looking up a just-replaced column. -/
theorem alistGet_setCol_self :
    ∀ (xs : List (String × List Val)) (c : String) (cells : List Val),
      (alistGet xs c).isSome = true →
      alistGet (xs.map fun p => if p.1 = c then (c, cells) else p) c = some cells
  | [], c, cells => by simp [alistGet]
  | p :: rest, c, cells => by
    intro hs
    unfold alistGet at hs
    simp only [List.map_cons]
    by_cases hp : p.1 = c
    · simp only [if_pos hp]
      simp [alistGet]
    · rw [if_neg hp] at hs
      simp only [if_neg hp]
      unfold alistGet
      rw [if_neg hp]
      exact alistGet_setCol_self rest c cells hs

/-- Looking up a column of a table built over a key list. -/
theorem alistGet_mapKeys (g : String → List Val) :
    ∀ (ks : List String) (c : String), c ∈ ks →
      alistGet (ks.map fun k => (k, g k)) c = some (g c)
  | [], c, hc => by cases hc
  | k :: ks, c, hc => by
    simp only [List.map_cons]
    unfold alistGet
    by_cases hp : k = c
    · subst hp
      simp
    · rw [if_neg hp]
      rcases List.mem_cons.mp hc with hc | hc
      · exact absurd hc.symm hp
      · exact alistGet_mapKeys g ks c hc

/-- The assembled table's columns are exactly the union of the first 100
records' keys (Polars' schema-inference window). -/
theorem names_dfFromRecords (rs : List Rec) :
    (dfFromRecords rs).names = unionKeys (rs.take 100) := by
  unfold dfFromRecords DataFrame.names
  simp only [List.map_map]
  exact List.map_id' _

/-- Successful `strptimeCol` dissected: the column existed, was
string-typed, and every string parsed. -/
theorem strptimeCol_ok {df : DataFrame} {c : String} {d1 : DataFrame}
    (h : strptimeCol df c = .ok d1) :
    ∃ cells parsed, alistGet df.cols c = some cells ∧
      cells.all Val.isStrOrNull = true ∧
      mapOpt strptimeCell cells = some parsed ∧
      d1 = df.setCol c parsed := by
  unfold strptimeCol at h
  cases hA : alistGet df.cols c with
  | none => rw [hA] at h; exact absurd h (by simp)
  | some cells =>
    rw [hA] at h
    dsimp only at h
    split_ifs at h with hall
    · cases hM : mapOpt strptimeCell cells with
      | none => rw [hM] at h; exact absurd h (by simp)
      | some parsed =>
        rw [hM] at h
        injection h with h
        exact ⟨cells, parsed, rfl, hall, hM, h.symm⟩

/-- A cell list that parses as timestamps is string-typed and `strptime`s
to the corresponding datetime cells. -/
theorem strptime_of_tsOfVal :
    ∀ {cells : List Val} {dts : List DT}, mapOpt tsOfVal cells = some dts →
      mapOpt strptimeCell cells = some (dts.map Val.vDT) ∧
        cells.all Val.isStrOrNull = true
  | [], dts, h => by
    injection h with h
    subst h
    simp [mapOpt]
  | v :: cells, dts, h => by
    unfold mapOpt at h
    cases hv : tsOfVal v with
    | none => rw [hv] at h; exact absurd h (by simp)
    | some t =>
      rw [hv] at h
      cases hcs : mapOpt tsOfVal cells with
      | none => rw [hcs] at h; exact absurd h (by simp)
      | some ts =>
        rw [hcs] at h
        injection h with h
        subst h
        obtain ⟨ih1, ih2⟩ := strptime_of_tsOfVal hcs
        obtain ⟨s, hs, hps⟩ : ∃ s, v = Val.vStr s ∧ parseTS s = some t := by
          cases v <;> simp [tsOfVal] at hv <;> exact ⟨_, rfl, hv⟩
        subst hs
        constructor
        · unfold mapOpt
          rw [show strptimeCell (Val.vStr s) = some (Val.vDT t) by
                simp [strptimeCell, hps], ih1]
          simp
        · simp [Val.isStrOrNull, ih2]

/-- `strptimeCol` on a fully parsing string column. -/
theorem strptimeCol_of_timeParses {df : DataFrame} {c : String} {dts : List DT}
    (h : timeParses df c = some dts) :
    strptimeCol df c = .ok (df.setCol c (dts.map Val.vDT)) := by
  unfold timeParses at h
  cases hA : alistGet df.cols c with
  | none => rw [hA] at h; exact absurd h (by simp)
  | some cells =>
    rw [hA] at h
    dsimp only at h
    obtain ⟨h1, h2⟩ := strptime_of_tsOfVal h
    unfold strptimeCol
    rw [hA]
    dsimp only
    rw [if_pos h2, h1]

/-- Parsed cells of a string-typed column are valid datetimes or nulls. -/
theorem parsed_cells_shape {cells parsed : List Val}
    (hall : cells.all Val.isStrOrNull = true)
    (h : mapOpt strptimeCell cells = some parsed) :
    ∀ v ∈ parsed, (∃ t, v = Val.vDT t ∧ t.Valid) ∨ v = Val.vNull := by
  intro v hv
  obtain ⟨x, hx, hxv⟩ := mapOpt_mem h v hv
  have hxs : x.isStrOrNull = true := by
    rw [List.all_eq_true] at hall
    exact hall x hx
  cases x with
  | vStr s =>
    simp only [strptimeCell] at hxv
    cases hps : parseTS s with
    | none => rw [hps] at hxv; exact absurd hxv (by simp)
    | some t =>
      rw [hps] at hxv
      injection hxv with hxv
      exact Or.inl ⟨t, hxv.symm, parseTS_valid hps⟩
  | vNull =>
    simp only [strptimeCell] at hxv
    injection hxv with hxv
    exact Or.inr hxv.symm
  | vNum n => simp [Val.isStrOrNull] at hxs
  | vBool b => simp [Val.isStrOrNull] at hxs
  | vList xs => simp [Val.isStrOrNull] at hxs
  | vObj kvs => simp [Val.isStrOrNull] at hxs
  | vDT t => simp [Val.isStrOrNull] at hxs
  | vTime t => simp [Val.isStrOrNull] at hxs

/-- Datetime cells extract to their datetimes. -/
theorem mapOpt_dtOf_map_vDT : ∀ l : List DT, mapOpt dtOf (l.map Val.vDT) = some l
  | [] => rfl
  | t :: l => by
    simp only [List.map_cons, mapOpt, dtOf]
    rw [mapOpt_dtOf_map_vDT l]

/-- Datetime cells extract to their datetimes (column form). -/
theorem cellsDT_map_vDT (l : List DT) : cellsDT (l.map Val.vDT) = some l := by
  unfold cellsDT
  exact mapOpt_dtOf_map_vDT l

/-- The datetimes of a parsed column are valid. -/
theorem cellsDT_valid {cells : List Val} {dts : List DT}
    (hshape : ∀ v ∈ cells, (∃ t, v = Val.vDT t ∧ t.Valid) ∨ v = Val.vNull)
    (h : cellsDT cells = some dts) : ∀ t ∈ dts, t.Valid := by
  intro t ht
  obtain ⟨v, hv, hvt⟩ := mapOpt_mem h t ht
  rcases hshape v hv with ⟨t', ht', hval⟩ | hnull
  · subst ht'
    simp only [dtOf] at hvt
    injection hvt with hvt
    exact hvt ▸ hval
  · subst hnull
    simp [dtOf] at hvt

/-- The column cells under a known lookup. -/
theorem getColD_eq {df : DataFrame} {c : String} {cells : List Val}
    (h : alistGet df.cols c = some cells) : df.getColD c = cells := by
  unfold DataFrame.getColD
  rw [h]
  rfl

/-- Successful `groupByDynamic` dissected. -/
theorem groupByDynamic_ok {df : DataFrame} {c f : String} {out : DataFrame}
    (h : groupByDynamic df c f = .ok out) :
    ∃ dts dur, cellsDT (df.getColD c) = some dts ∧ parseDuration f = some dur ∧
      dur.parsedInt = false ∧ (0 < dur.months ∨ 0 < dur.nanos) ∧
      ascMicros dts = true ∧
      out = ⟨[(c, (groupRuns (dts.map (bucketKey dur))).map fun r => Val.vTime r.1),
              ("len", (groupRuns (dts.map (bucketKey dur))).map fun r =>
                 Val.vNum (r.2 : Int))]⟩ := by
  unfold groupByDynamic at h
  cases hC : cellsDT (df.getColD c) with
  | none => rw [hC] at h; exact absurd h (by simp)
  | some dts =>
    rw [hC] at h
    dsimp only at h
    cases hD : parseDuration f with
    | none => rw [hD] at h; exact absurd h (by simp)
    | some dur =>
      rw [hD] at h
      dsimp only at h
      split_ifs at h with h1 h2 h3
      · injection h with h
        exact ⟨dts, dur, rfl, rfl, by simpa using h1, h2, h3, h.symm⟩

/-- Successful `resample_data` dissected. -/
theorem resample_ok {df : DataFrame} {c f : String} {out : DataFrame}
    (h : resample_data df c f = .ok out) :
    df.height ≠ 0 ∧ ∃ d1, strptimeCol df c = .ok d1 ∧
      groupByDynamic d1 c f = .ok out := by
  unfold resample_data at h
  split_ifs at h with h0
  refine ⟨h0, ?_⟩
  cases hS : strptimeCol df c with
  | error e => rw [hS] at h; cases e <;> exact absurd h (by simp [Except.bind])
  | ok d1 =>
    rw [hS] at h
    rw [show (Except.ok d1 : Except PErr DataFrame).bind
          (fun d1 => groupByDynamic d1 c f) = groupByDynamic d1 c f from rfl] at h
    cases hG : groupByDynamic d1 c f with
    | error e => rw [hG] at h; cases e <;> exact absurd h (by simp)
    | ok r =>
      rw [hG] at h
      dsimp only at h
      injection h with h
      exact ⟨d1, rfl, by rw [hG, h]⟩

/-- Extracting the times of a bucket-start column. -/
theorem timesOf_map_vTime :
    ∀ l : List (Int × Nat), timesOf (l.map fun r => Val.vTime r.1) = l.map Prod.fst
  | [] => rfl
  | x :: l => by
    have ih := timesOf_map_vTime l
    unfold timesOf at ih ⊢
    simp only [List.map_cons, List.filterMap_cons]
    rw [ih]

/-- The first column of a two-column frame. -/
theorem getColD_pair (c c2 : String) (A B : List Val) :
    (DataFrame.mk [(c, A), (c2, B)]).getColD c = A := by
  unfold DataFrame.getColD alistGet
  simp

/-- Claim C8: whenever `resample_data` succeeds, the bucket-start column of
the result is strictly increasing (rows ordered ascending by bucket start
time). -/
theorem claim_C8 (df : DataFrame) (c f : String) (out : DataFrame)
    (h : resample_data df c f = .ok out) :
    List.Chain' (· < ·) (timesOf (out.getColD c)) := by
  obtain ⟨h0, d1, hS, hG⟩ := resample_ok h
  obtain ⟨cells, parsed, hA, hall, hM, hd1⟩ := strptimeCol_ok hS
  obtain ⟨dts, dur, hC, hD, hi, hpos, hasc, hout⟩ := groupByDynamic_ok hG
  have hsome : (alistGet df.cols c).isSome = true := by rw [hA]; rfl
  have hset : alistGet d1.cols c = some parsed := by
    rw [hd1]
    exact alistGet_setCol_self df.cols c parsed hsome
  have hcol : d1.getColD c = parsed := getColD_eq hset
  rw [hcol] at hC
  have hshape := parsed_cells_shape hall hM
  have hvalid := cellsDT_valid hshape hC
  have hchain := (ascMicros_iff dts).mp hasc
  have h1 := chain_map_bucketKey dur dts hvalid hchain
  have h2 := groupRuns_chain _ h1
  rw [hout, getColD_pair, timesOf_map_vTime]
  exact h2

/-- `group_by_dynamic` on a clean datetime column, evaluated. -/
theorem groupByDynamic_eval (d1 : DataFrame) (c f : String) (dts : List DT)
    (hcol : alistGet d1.cols c = some (dts.map Val.vDT)) :
    groupByDynamic d1 c f =
      match parseDuration f with
      | none => .error .invalidOp
      | some dur =>
        if dur.parsedInt then .error .computeErr
        else if 0 < dur.months ∨ 0 < dur.nanos then
          if ascMicros dts then
            .ok ⟨[(c, (groupRuns (dts.map (bucketKey dur))).map fun r => Val.vTime r.1),
                  ("len", (groupRuns (dts.map (bucketKey dur))).map fun r =>
                     Val.vNum (r.2 : Int))]⟩
          else .error .invalidOp
        else .error .computeErr := by
  unfold groupByDynamic
  rw [getColD_eq hcol, cellsDT_map_vDT]

/-- `resample_data` on a non-empty table whose time column is entirely
conforming strings, evaluated: the outcome depends only on the frequency
token and the sortedness of the parsed times, with both an unrecognized
token and unsorted input surfacing as the invalid-frequency condition. -/
theorem resample_eval (df : DataFrame) (c f : String) (dts : List DT)
    (h0 : df.height ≠ 0) (hT : timeParses df c = some dts) :
    resample_data df c f =
      match parseDuration f with
      | none => .error .invalidFreq
      | some dur =>
        if dur.parsedInt then .error (.uncaught .computeErr)
        else if 0 < dur.months ∨ 0 < dur.nanos then
          if ascMicros dts then
            .ok ⟨[(c, (groupRuns (dts.map (bucketKey dur))).map fun r => Val.vTime r.1),
                  ("len", (groupRuns (dts.map (bucketKey dur))).map fun r =>
                     Val.vNum (r.2 : Int))]⟩
          else .error .invalidFreq
        else .error (.uncaught .computeErr) := by
  have hS := strptimeCol_of_timeParses hT
  have hsome : (alistGet df.cols c).isSome = true := by
    unfold timeParses at hT
    cases hA : alistGet df.cols c with
    | none => rw [hA] at hT; exact absurd hT (by simp)
    | some cells => rfl
  have hset : alistGet (df.setCol c (dts.map Val.vDT)).cols c
      = some (dts.map Val.vDT) :=
    alistGet_setCol_self df.cols c _ hsome
  unfold resample_data
  rw [if_neg h0, hS,
    show (Except.ok (df.setCol c (dts.map Val.vDT)) : Except PErr DataFrame).bind
        (fun d1 => groupByDynamic d1 c f)
      = groupByDynamic (df.setCol c (dts.map Val.vDT)) c f from rfl,
    groupByDynamic_eval _ c f dts hset]
  cases parseDuration f with
  | none => rfl
  | some dur =>
    dsimp only
    by_cases hi : dur.parsedInt = true
    · simp only [if_pos hi]
    · rw [if_neg hi, if_neg hi]
      by_cases hpos : 0 < dur.months ∨ 0 < dur.nanos
      · rw [if_pos hpos, if_pos hpos]
        by_cases hasc : ascMicros dts = true
        · rw [if_pos hasc, if_pos hasc]
        · rw [if_neg hasc, if_neg hasc]
      · rw [if_neg hpos, if_neg hpos]

/-- Claim C2: a zero-row table always fails with the empty-input error,
whatever the frequency and time column. -/
theorem claim_C2 (df : DataFrame) (c f : String) (h : df.height = 0) :
    resample_data df c f = .error .emptyDf := by
  unfold resample_data
  rw [if_pos h]

theorem claim_C2_witness :
    DataFrame.height ⟨[("time", []), ("intensity", [])]⟩ = 0 ∧
      resample_data ⟨[("time", []), ("intensity", [])]⟩ "time" "invalid_frequency"
        = .error .emptyDf :=
  ⟨rfl, claim_C2 _ _ _ rfl⟩

/-- Claim C1 (amended): on a non-empty table whose time column is
string-typed with every value conforming and chronologically sorted, the
invalid-frequency condition holds iff the token is unrecognized; and it is
distinct from the empty-input condition.  (Without the provisos the
condition also arises from a non-conforming time string — see the
counterexample — or from unsorted input, both rewrapped from the engine's
`InvalidOperationError`.) -/
theorem claim_C1 (df : DataFrame) (c f : String) (dts : List DT)
    (h0 : df.height ≠ 0) (hT : timeParses df c = some dts)
    (hasc : ascMicros dts = true) :
    (resample_data df c f = .error .invalidFreq ↔ parseDuration f = none)
      ∧ RErr.invalidFreq ≠ RErr.emptyDf := by
  refine ⟨?_, by simp⟩
  rw [resample_eval df c f dts h0 hT]
  cases hD : parseDuration f with
  | none => simp
  | some dur =>
    dsimp only
    rw [if_pos hasc]
    constructor
    · intro hcon
      split_ifs at hcon <;> exact absurd hcon (by simp)
    · intro hcon
      exact absurd hcon (by simp)

theorem claim_C1_witness :
    DataFrame.height dfFourRows ≠ 0 ∧
      timeParses dfFourRows "time" = some dtsFourRows ∧
      ascMicros dtsFourRows = true ∧
      (resample_data dfFourRows "time" "invalid_frequency" = .error .invalidFreq ↔
        parseDuration "invalid_frequency" = none) :=
  ⟨by decide, rfl, by decide,
    (claim_C1 dfFourRows "time" "invalid_frequency" dtsFourRows
      (by decide) rfl (by decide)).1⟩

/-- Claim C1 counterexample: a recognized frequency token ("1d") still
produces the invalid-frequency condition when the time column holds a
non-conforming string — the condition is not exclusive to bad tokens. -/
theorem claim_C1_cex :
    (parseDuration "1d").isSome = true ∧
      resample_data dfBadTime "time" "1d" = .error .invalidFreq :=
  ⟨rfl, rfl⟩

/-- Claim C3 (amended): `resample_data` succeeds on a table whose time
column is still string-typed with conforming, chronologically sorted values
and a recognized positive frequency. -/
theorem claim_C3 (df : DataFrame) (c f : String) (dts : List DT) (dur : Dur)
    (h0 : df.height ≠ 0) (hT : timeParses df c = some dts)
    (hD : parseDuration f = some dur) (hi : dur.parsedInt = false)
    (hpos : 0 < dur.months ∨ 0 < dur.nanos) (hasc : ascMicros dts = true) :
    ∃ out, resample_data df c f = .ok out := by
  rw [resample_eval df c f dts h0 hT, hD]
  dsimp only
  rw [if_neg (by simp [hi]), if_pos hpos, if_pos hasc]
  exact ⟨_, rfl⟩

theorem claim_C3_witness :
    timeParses dfFourRows "time" = some dtsFourRows ∧
      parseDuration "1w" = some ⟨0, 604800000000000, false⟩ ∧
      ∃ out, resample_data dfFourRows "time" "1w" = .ok out :=
  ⟨rfl, rfl,
    claim_C3 dfFourRows "time" "1w" dtsFourRows ⟨0, 604800000000000, false⟩
      (by decide) rfl rfl rfl (Or.inr (by norm_num)) rfl⟩

/-- Claim C3 counterexample: on a table whose designated timestamp column
was already parsed to datetimes, `resample_data` does not succeed — the
string re-parse rejects the non-string column (dtype error, uncaught). -/
theorem claim_C3_cex :
    resample_data dfParsedTime "time" "1d" = .error (.uncaught .schemaErr) := rfl

theorem claim_C8_witness :
    resample_data dfFourRows "time" "1d" = .ok dfFourRowsDaily ∧
      List.Chain' (· < ·) (timesOf (dfFourRowsDaily.getColD "time")) :=
  ⟨rfl, claim_C8 dfFourRows "time" "1d" dfFourRowsDaily rfl⟩

/-- Claim C9: `fetch_data` returns the decoded body and no diagnostic on
status 200, and the absent-data sentinel plus a diagnostic spelling out the
status code and body text on any other status; being a total function, it
raises no exception in either case. -/
theorem claim_C9 (http : String → List (String × String) → HttpResponse)
    (endpoint : String) (params : List (String × String)) (r : HttpResponse)
    (hr : http (BASE_URL ++ endpoint) (dset params "api_key" API_KEY) = r) :
    (r.status = 200 → fetch_data http endpoint params = (some r.body, [])) ∧
    (r.status ≠ 200 → fetch_data http endpoint params
      = (none, ["Error: " ++ toString r.status ++ " - " ++ r.text])) := by
  unfold fetch_data
  dsimp only
  rw [hr]
  constructor
  · intro h
    rw [if_pos h]
  · intro h
    rw [if_neg h]

theorem claim_C9_witness :
    fetch_data (fun _ _ => ⟨200, Val.vBool true, "ok"⟩) "FLR" []
        = (some (Val.vBool true), []) ∧
      fetch_data (fun _ _ => ⟨404, Val.vNull, "Not Found"⟩) "FLR" []
        = (none, ["Error: " ++ toString (404 : Nat) ++ " - " ++ "Not Found"]) :=
  ⟨(claim_C9 _ "FLR" [] ⟨200, Val.vBool true, "ok"⟩ rfl).1 rfl,
   (claim_C9 _ "FLR" [] ⟨404, Val.vNull, "Not Found"⟩ rfl).2 (by decide)⟩

/-- Claim C10: a non-dict `nested_keys` argument (such as the string
`"time"` that `main` passes for solar flares) is skipped entirely — the
build behaves exactly as if no nested spec had been given. -/
theorem claim_C10 (data : Option (List Val)) (mapping : List (String × String))
    (t : Option String) :
    prepare_dataframe data mapping NestedArg.nonDict t
      = prepare_dataframe data mapping NestedArg.noSpec t := rfl

/-- Claim C7: a `None` record sequence, an empty one, and one containing
only non-mapping entries all build the same zero-row, zero-column table. -/
theorem claim_C7 (mapping : List (String × String)) (nested : NestedArg)
    (t : Option String) :
    prepare_dataframe none mapping nested t = .ok emptyDF ∧
      prepare_dataframe (some []) mapping nested t = .ok emptyDF ∧
      emptyDF.height = 0 ∧
      ∀ ds : List Val, (∀ e ∈ ds, e.isObj = false) →
        prepare_dataframe (some ds) mapping nested t = .ok emptyDF := by
  refine ⟨rfl, rfl, rfl, ?_⟩
  intro ds hds
  cases ds with
  | nil => rfl
  | cons e ds' =>
    have hproc : processedRecords (e :: ds') mapping nested = [] := by
      unfold processedRecords
      rw [List.filterMap_eq_nil_iff]
      intro a ha
      have := hds a ha
      cases a <;> simp [Val.isObj] at this ⊢
    have hbt : buildTable (e :: ds') mapping nested = emptyDF := by
      unfold buildTable
      rw [hproc]
      rfl
    unfold prepare_dataframe
    dsimp only
    rw [if_neg (by simp), hbt]
    cases t with
    | none => rfl
    | some c =>
      dsimp only
      rw [if_neg (by simp [emptyDF, DataFrame.names])]

theorem claim_C7_witness :
    (∀ e ∈ [Val.vNum 3, Val.vNull], e.isObj = false) ∧
      prepare_dataframe (some [Val.vNum 3, Val.vNull]) [("a", "b")]
          NestedArg.noSpec (some "t") = .ok emptyDF :=
  ⟨by decide,
   (claim_C7 [("a", "b")] NestedArg.noSpec (some "t")).2.2.2
     [Val.vNum 3, Val.vNull] (by decide)⟩

/-- Claim C5 (amended): with no timestamp column requested, the build
succeeds with the assembled table, whose columns are the union of the keys
seen across the first 100 processed records (Polars' default
schema-inference window), in order of first appearance; every processed
record contributes one row, taking a null at each of those columns it
lacks.  Keys first appearing after the 100th processed record do not become
columns. -/
theorem claim_C5 (ds : List Val) (mapping : List (String × String))
    (nested : NestedArg) :
    prepare_dataframe (some ds) mapping nested none
        = .ok (buildTable ds mapping nested) ∧
      (buildTable ds mapping nested).names
        = unionKeys ((processedRecords ds mapping nested).take 100) ∧
      ∀ c ∈ unionKeys ((processedRecords ds mapping nested).take 100),
        (buildTable ds mapping nested).getColD c
          = (processedRecords ds mapping nested).map fun r => dgetD r c Val.vNull := by
  refine ⟨?_, ?_, ?_⟩
  · cases ds with
    | nil => rfl
    | cons e ds' => rfl
  · unfold buildTable
    exact names_dfFromRecords _
  · intro c hc
    unfold buildTable dfFromRecords DataFrame.getColD
    rw [alistGet_mapKeys
      (fun k => (processedRecords ds mapping nested).map fun r => dgetD r k Val.vNull)
      (unionKeys ((processedRecords ds mapping nested).take 100)) c hc]
    rfl

theorem claim_C5_witness :
    ("a" ∈ unionKeys ((processedRecords
        [Val.vObj [("a", Val.vNum 1)], Val.vObj [("b", Val.vNum 2)]]
        [] NestedArg.noSpec).take 100)) ∧
      (buildTable [Val.vObj [("a", Val.vNum 1)], Val.vObj [("b", Val.vNum 2)]]
          [] NestedArg.noSpec).getColD "a" = [Val.vNum 1, Val.vNull] :=
  ⟨by decide,
   by
     rw [(claim_C5 [Val.vObj [("a", Val.vNum 1)], Val.vObj [("b", Val.vNum 2)]]
           [] NestedArg.noSpec).2.2 "a" (by decide)]
     rfl⟩

set_option maxRecDepth 4000 in
/-- Claim C5 counterexample: the key "b", seen only in the 101st processed
record, is in the union of keys across all processed records but is not a
column of the assembled table — schema inference stops at 100 records. -/
theorem claim_C5_cex :
    ("b" ∈ unionKeys (processedRecords manyRecords [] NestedArg.noSpec)) ∧
      "b" ∉ (buildTable manyRecords [] NestedArg.noSpec).names :=
  ⟨by decide, by decide⟩

/-- `strptimeCol` under a known string-typed column, evaluated. -/
theorem strptimeCol_eval {df : DataFrame} {c : String} {cells : List Val}
    (hA : alistGet df.cols c = some cells)
    (hall : cells.all Val.isStrOrNull = true) :
    strptimeCol df c =
      match mapOpt strptimeCell cells with
      | some parsed => .ok (df.setCol c parsed)
      | none => .error .invalidOp := by
  unfold strptimeCol
  rw [hA]
  dsimp only
  rw [if_pos hall]

/-- With a timestamp column that is present, `prepare_dataframe` is the
conversion of that column of the assembled table. -/
theorem prepare_present {ds : List Val} {mapping : List (String × String)}
    {nested : NestedArg} {c : String}
    (hmem : c ∈ (buildTable ds mapping nested).names) :
    prepare_dataframe (some ds) mapping nested (some c)
      = strptimeCol (buildTable ds mapping nested) c := by
  cases ds with
  | nil =>
    exact absurd hmem (by intro h; exact List.not_mem_nil c h)
  | cons e ds' =>
    unfold prepare_dataframe
    dsimp only
    rw [if_neg (by simp), if_pos hmem]

/-- Claim C4, part 1: when the designated timestamp column is present in
the assembled table and string-typed, the build succeeds exactly when every
value of that column parses under the fixed format; on success the whole
column is the parsed datetimes (nulls staying null), and a single
non-conforming value fails the whole build with the strict-parse error. -/
theorem claim_C4 :
    (∀ (ds : List Val) (mapping : List (String × String)) (nested : NestedArg)
       (c : String),
       c ∈ (buildTable ds mapping nested).names →
       ((buildTable ds mapping nested).getColD c).all Val.isStrOrNull = true →
       ((∃ df', prepare_dataframe (some ds) mapping nested (some c) = .ok df') ↔
          ∀ v ∈ (buildTable ds mapping nested).getColD c,
            (strptimeCell v).isSome = true) ∧
       (∀ df', prepare_dataframe (some ds) mapping nested (some c) = .ok df' →
          List.Forall₂ (fun v w => strptimeCell v = some w)
            ((buildTable ds mapping nested).getColD c) (df'.getColD c)) ∧
       ((∃ v ∈ (buildTable ds mapping nested).getColD c, strptimeCell v = none) →
          prepare_dataframe (some ds) mapping nested (some c)
            = .error .invalidOp)) ∧
    (∀ (ds : List Val) (mapping : List (String × String)) (nested : NestedArg)
       (c : String),
       c ∉ (buildTable ds mapping nested).names →
       prepare_dataframe (some ds) mapping nested (some c)
         = .ok (buildTable ds mapping nested)) := by
  constructor
  · intro ds mapping nested c hmem hall
    obtain ⟨cells, hA⟩ :=
      Option.isSome_iff_exists.mp ((alistGet_isSome_iff_mem _ c).mpr hmem)
    have hcells : (buildTable ds mapping nested).getColD c = cells := getColD_eq hA
    rw [hcells] at hall ⊢
    rw [prepare_present hmem, strptimeCol_eval hA hall]
    cases hM : mapOpt strptimeCell cells with
    | some parsed =>
      dsimp only
      refine ⟨?_, ?_, ?_⟩
      · refine iff_of_true ⟨_, rfl⟩ ?_
        intro v hv
        exact mapOpt_isSome_iff.mp (by rw [hM]; rfl) v hv
      · intro df' hdf'
        injection hdf' with hdf'
        subst hdf'
        have hset : alistGet ((buildTable ds mapping nested).setCol c parsed).cols c
            = some parsed :=
          alistGet_setCol_self _ c parsed (by rw [hA]; rfl)
        rw [getColD_eq hset]
        exact mapOpt_eq_some_iff.mp hM
      · rintro ⟨v, hv, hfail⟩
        have := mapOpt_isSome_iff.mp (by rw [hM]; rfl) v hv
        rw [hfail] at this
        exact absurd this (by simp)
    | none =>
      dsimp only
      have hnot : ¬ ∀ v ∈ cells, (strptimeCell v).isSome = true := by
        intro hcon
        have := mapOpt_isSome_iff.mpr hcon
        rw [hM] at this
        exact absurd this (by simp)
      refine ⟨iff_of_false ?_ hnot, ?_, fun _ => rfl⟩
      · rintro ⟨df', hdf'⟩
        exact absurd hdf' (by simp)
      · intro df' hdf'
        exact absurd hdf' (by simp)
  · intro ds mapping nested c hmem
    cases ds with
    | nil => rfl
    | cons e ds' =>
      unfold prepare_dataframe
      dsimp only
      rw [if_neg (by simp), if_neg hmem]

/-- Non-dict elements of a nested list leave the record unchanged. -/
theorem foldl_extractStep_nonobj (sub : List (String × String)) :
    ∀ (es : List Val) (acc : Rec), (∀ x ∈ es, x.isObj = false) →
      es.foldl (extractStep sub) acc = acc
  | [], _, _ => rfl
  | x :: es, acc, h => by
    rw [List.foldl_cons]
    have hx := h x (by simp)
    have hstep : extractStep sub acc x = acc := by
      cases x <;> first
        | rfl
        | (exact absurd hx (by simp [Val.isObj]))
    rw [hstep]
    exact foldl_extractStep_nonobj sub es acc fun y hy => h y (by simp [hy])

/-- Claim C6: nested extraction.  Part 1 (last wins): with a single-pair
spec `{k: {sk: dc}}`, if the record's value at `k` is a list whose last
dict element is `o` (followed only by non-dict elements), the extracted
column `dc` ends up holding `o.get(sk)`.  Part 2: when `k` is absent or its
value is not a list, the record is unchanged.  Part 3: when the list has no
dict elements, the record is unchanged. -/
theorem claim_C6 :
    (∀ (e : Rec) (k sk dc : String) (es1 es2 : List Val) (o : List (String × Val)),
       listAt e k = some (es1 ++ Val.vObj o :: es2) →
       (∀ x ∈ es2, x.isObj = false) →
       alistGet (extract_nested e (NestedArg.dict [(k, [(sk, dc)])])) dc
         = some (dgetD o sk Val.vNull)) ∧
    (∀ (e : Rec) (k : String) (sub : List (String × String)),
       listAt e k = none →
       extract_nested e (NestedArg.dict [(k, sub)]) = e) ∧
    (∀ (e : Rec) (k : String) (sub : List (String × String)) (es : List Val),
       listAt e k = some es → (∀ x ∈ es, x.isObj = false) →
       extract_nested e (NestedArg.dict [(k, sub)]) = e) := by
  refine ⟨?_, ?_, ?_⟩
  · intro e k sk dc es1 es2 o hL hes2
    have hA : alistGet e k = some (Val.vList (es1 ++ Val.vObj o :: es2)) := by
      unfold listAt at hL
      cases hA : alistGet e k with
      | none => rw [hA] at hL; exact absurd hL (by simp)
      | some v =>
        rw [hA] at hL
        cases v with
        | vList xs =>
          have hL2 : some xs = some (es1 ++ Val.vObj o :: es2) := hL
          injection hL2 with hL2
          rw [hL2]
        | vStr s => exact absurd hL (by simp)
        | vNum n => exact absurd hL (by simp)
        | vBool b => exact absurd hL (by simp)
        | vNull => exact absurd hL (by simp)
        | vObj kvs => exact absurd hL (by simp)
        | vDT t => exact absurd hL (by simp)
        | vTime t => exact absurd hL (by simp)
    show alistGet (List.foldl extractPair e [(k, [(sk, dc)])]) dc = _
    rw [List.foldl_cons, List.foldl_nil]
    unfold extractPair
    rw [hA]
    dsimp only
    rw [List.foldl_append, List.foldl_cons]
    rw [show extractStep [(sk, dc)] (List.foldl (extractStep [(sk, dc)]) e es1)
          (Val.vObj o)
        = dset (List.foldl (extractStep [(sk, dc)]) e es1) dc (dgetD o sk Val.vNull)
      from rfl]
    rw [foldl_extractStep_nonobj [(sk, dc)] es2 _ hes2]
    exact alistGet_dset_self _ dc _
  · intro e k sub hL
    show List.foldl extractPair e [(k, sub)] = e
    rw [List.foldl_cons, List.foldl_nil]
    unfold extractPair
    unfold listAt at hL
    cases hA : alistGet e k with
    | none => rfl
    | some v =>
      rw [hA] at hL
      dsimp only at hL ⊢
      cases v <;> first
        | rfl
        | (exact absurd hL (by simp))
  · intro e k sub es hL hes
    have hA : alistGet e k = some (Val.vList es) := by
      unfold listAt at hL
      cases hA : alistGet e k with
      | none => rw [hA] at hL; exact absurd hL (by simp)
      | some v =>
        rw [hA] at hL
        cases v with
        | vList xs =>
          have hL2 : some xs = some es := hL
          injection hL2 with hL2
          rw [hL2]
        | vStr s => exact absurd hL (by simp)
        | vNum n => exact absurd hL (by simp)
        | vBool b => exact absurd hL (by simp)
        | vNull => exact absurd hL (by simp)
        | vObj kvs => exact absurd hL (by simp)
        | vDT t => exact absurd hL (by simp)
        | vTime t => exact absurd hL (by simp)
    show List.foldl extractPair e [(k, sub)] = e
    rw [List.foldl_cons, List.foldl_nil]
    unfold extractPair
    rw [hA]
    dsimp only
    exact foldl_extractStep_nonobj sub es e hes

theorem claim_C4_witness :
    ("time" ∈ (buildTable scenarioARecords scenarioAMapping NestedArg.noSpec).names) ∧
      ((buildTable scenarioARecords scenarioAMapping NestedArg.noSpec).getColD
          "time").all Val.isStrOrNull = true ∧
      (∃ df', prepare_dataframe (some scenarioARecords) scenarioAMapping
          NestedArg.noSpec (some "time") = .ok df') :=
  ⟨by decide, by decide,
   ((claim_C4.1 scenarioARecords scenarioAMapping NestedArg.noSpec "time"
       (by decide) (by decide)).1).mpr (by decide)⟩

theorem claim_C6_witness :
    (listAt [("allKpIndex",
        Val.vList [Val.vObj [("kpIndex", Val.vNum 3)],
                   Val.vObj [("kpIndex", Val.vNum 7)], Val.vStr "x"])] "allKpIndex"
      = some ([Val.vObj [("kpIndex", Val.vNum 3)]]
          ++ Val.vObj [("kpIndex", Val.vNum 7)] :: [Val.vStr "x"])) ∧
      alistGet
        (extract_nested
          [("allKpIndex",
            Val.vList [Val.vObj [("kpIndex", Val.vNum 3)],
                       Val.vObj [("kpIndex", Val.vNum 7)], Val.vStr "x"])]
          (NestedArg.dict [("allKpIndex", [("kpIndex", "kp_index")])]))
        "kp_index" = some (dgetD [("kpIndex", Val.vNum 7)] "kpIndex" Val.vNull) ∧
      extract_nested [("a", Val.vStr "s")]
          (NestedArg.dict [("missing", [("kpIndex", "kp_index")])])
        = [("a", Val.vStr "s")] :=
  ⟨rfl,
   claim_C6.1 _ "allKpIndex" "kpIndex" "kp_index"
     [Val.vObj [("kpIndex", Val.vNum 3)]] [Val.vStr "x"]
     [("kpIndex", Val.vNum 7)] rfl (by decide),
   claim_C6.2.1 [("a", Val.vStr "s")] "missing" [("kpIndex", "kp_index")] rfl⟩
